import Mathlib

/-!
Verification of the wire-and-session layer of a MySQL client driver.

Byte strings are modelled as `List Nat` (each element a byte value 0-255).
The embedding follows `protocol/datatypes.py` (byte codec),
`protocol/wire/plain.py` and `protocol/wire/common.py` (plain framer),
`protocol/wire/compressed.py` (compressed framer),
`protocol/packets/readers.py` and `protocol/packets/general.py`
(reply classification), and `protocol/resultset.py` / `protocol/text.py`
(result-set name mapping).

Fallible operations (Python exceptions) are modelled with `Option` /
explicit result types; a Python function that silently truncates is
modelled by a total function doing the same.
-/

namespace MySQLSpec

/-- `MAX_PACKET = 2^24 - 1`, from `protocol/wire/common.py`. -/
def MAX_PACKET : Nat := 16777215

/-- `next_seq`, from `protocol/wire/common.py`: advance modulo 256. -/
def nextSeq (seq : Nat) : Nat := (seq + 1) % 256

/-- `to_int`, from `protocol/datatypes.py`: little-endian unsigned decode. -/
def toInt : List Nat → Nat
  | [] => 0
  | b :: bs => b + 256 * toInt bs

/-- Little-endian digits of `value`, `length` bytes.  This is the value
computed by Python `int.to_bytes(value, length, 'little')` whenever that
call succeeds. -/
def toBytesNat : Nat → Nat → List Nat
  | 0, _ => []
  | n + 1, v => v % 256 :: toBytesNat n (v / 256)

/-- `to_bytes`, from `protocol/datatypes.py`: Python `int.to_bytes`
raises `OverflowError` when the value does not fit, modelled by `none`. -/
def toBytes (length value : Nat) : Option (List Nat) :=
  if value < 256 ^ length then some (toBytesNat length value) else none

theorem length_toBytesNat (n v : Nat) : (toBytesNat n v).length = n := by
  induction n generalizing v with
  | zero => rfl
  | succ n ih => simp [toBytesNat, ih]

theorem toInt_toBytesNat (n v : Nat) (h : v < 256 ^ n) :
    toInt (toBytesNat n v) = v := by
  induction n generalizing v with
  | zero =>
    simp [pow_zero] at h
    simp [toBytesNat, toInt, h]
  | succ n ih =>
    have hdiv : v / 256 < 256 ^ n := by
      rw [Nat.div_lt_iff_lt_mul (by norm_num : 0 < 256)]
      calc v < 256 ^ (n + 1) := h
        _ = 256 ^ n * 256 := by ring
    simp only [toBytesNat, toInt, ih (v / 256) hdiv]
    omega

/-- `Reader._splice`, from `protocol/datatypes.py`: Python slicing is
total; requesting more bytes than remain returns only what is there. -/
def splice (data : List Nat) (length : Nat) : List Nat × List Nat :=
  (data.take length, data.drop length)

/-- `Reader.int`, from `protocol/datatypes.py`. -/
def readIntFW (length : Nat) (data : List Nat) : Nat × List Nat :=
  (toInt (data.take length), data.drop length)

/-- `Reader.bytes_null`, from `protocol/datatypes.py`: Python
`bytes.partition(b'\x00')` — everything before the first 0 byte is the
value; if there is no 0 byte the whole buffer is the value and the
remainder is empty.  No exception is ever raised. -/
def bytesNull (data : List Nat) : List Nat × List Nat :=
  (data.takeWhile (fun b => b != 0), (data.dropWhile (fun b => b != 0)).drop 1)

/-- `Reader._read_lenenc_int`, from `protocol/datatypes.py`.
`none` models the exceptions: `IndexError` on an empty buffer,
`ValueError('unknown lenenc type')` on lead byte 0xfb or 0xff. -/
def readLenencInt (data : List Nat) : Option (Nat × List Nat) :=
  match data with
  | [] => none
  | size :: _ =>
    if size < 0xfb then some (toInt (data.take 1), data.drop 1)
    else if size = 0xfc then some (toInt ((data.drop 1).take 2), data.drop 3)
    else if size = 0xfd then some (toInt ((data.drop 1).take 3), data.drop 4)
    else if size = 0xfe then some (toInt ((data.drop 1).take 8), data.drop 9)
    else none

/-- `Writer._write_lenenc_int`, from `protocol/datatypes.py`.  Note the
source compares with `< 65535` and `< 16777215` (not `<=`). -/
def writeLenencInt (value : Nat) : Option (List Nat) :=
  if value < 0xfb then toBytes 1 value
  else if value < 65535 then do
    let t ← toBytes 1 0xfc
    let v ← toBytes 2 value
    pure (t ++ v)
  else if value < 16777215 then do
    let t ← toBytes 1 0xfd
    let v ← toBytes 3 value
    pure (t ++ v)
  else do
    let t ← toBytes 1 0xfe
    let v ← toBytes 8 value
    pure (t ++ v)

theorem toBytes_eq_some (length value : Nat) (h : value < 256 ^ length) :
    toBytes length value = some (toBytesNat length value) := by
  simp [toBytes, h]

theorem readLenencInt_fc (t rest : List Nat) (h : t.length = 2) :
    readLenencInt (252 :: (t ++ rest)) = some (toInt t, rest) := by
  have e1 : List.drop 1 (252 :: (t ++ rest)) = t ++ rest := rfl
  have e3 : List.drop 3 (252 :: (t ++ rest)) = List.drop 2 (t ++ rest) := rfl
  simp [readLenencInt, e1, e3, List.take_left' h, List.drop_left' h]

theorem readLenencInt_fd (t rest : List Nat) (h : t.length = 3) :
    readLenencInt (253 :: (t ++ rest)) = some (toInt t, rest) := by
  have e1 : List.drop 1 (253 :: (t ++ rest)) = t ++ rest := rfl
  have e4 : List.drop 4 (253 :: (t ++ rest)) = List.drop 3 (t ++ rest) := rfl
  simp [readLenencInt, e1, e4, List.take_left' h, List.drop_left' h]

theorem readLenencInt_fe (t rest : List Nat) (h : t.length = 8) :
    readLenencInt (254 :: (t ++ rest)) = some (toInt t, rest) := by
  have e1 : List.drop 1 (254 :: (t ++ rest)) = t ++ rest := rfl
  have e9 : List.drop 9 (254 :: (t ++ rest)) = List.drop 8 (t ++ rest) := rfl
  simp [readLenencInt, e1, e9, List.take_left' h, List.drop_left' h]

/-- C6 (amended).  Lenenc round trip: for every `n < 2⁶⁴`,
`read(write(n)) == n`.  The writer picks the smallest tag that its
comparisons select: a single byte for `n < 0xfb`, `0xfc`+u16 for
`n < 65535`, `0xfd`+u24 for `n < 16777215`, and `0xfe`+u64 above; at
the boundary values `65535` and `16777215` themselves the source's
strict `<` comparisons skip the minimal encoding and use the next
wider one. -/
theorem lenenc_roundtrip (n : Nat) (rest : List Nat) (h : n < 2 ^ 64) :
    ∃ bs, writeLenencInt n = some bs ∧
      readLenencInt (bs ++ rest) = some (n, rest) ∧
      bs.length =
        (if n < 0xfb then 1 else if n < 65535 then 3
         else if n < 16777215 then 4 else 9) ∧
      bs.head? =
        (if n < 0xfb then some n else if n < 65535 then some 0xfc
         else if n < 16777215 then some 0xfd else some 0xfe) := by
  by_cases h1 : n < 0xfb
  · have hb : toBytesNat 1 n = [n] := by
      simp [toBytesNat, Nat.mod_eq_of_lt (by omega : n < 256)]
    refine ⟨toBytesNat 1 n, ?_, ?_, ?_, ?_⟩
    · simp [writeLenencInt, h1, toBytes_eq_some 1 n (by simpa using (by omega : n < 256))]
    · simp [hb, readLenencInt, h1, toInt]; omega
    · simp [length_toBytesNat, h1]
    · simp [hb, h1]
  · by_cases h2 : n < 65535
    · refine ⟨252 :: toBytesNat 2 n, ?_, ?_, ?_, ?_⟩
      · rw [writeLenencInt, if_neg h1, if_pos h2]
        rw [toBytes_eq_some 1 252 (by norm_num),
          toBytes_eq_some 2 n (by simpa using (by omega : n < 65536))]
        rfl
      · rw [List.cons_append, readLenencInt_fc _ _ (length_toBytesNat 2 n),
          toInt_toBytesNat 2 n (by simpa using (by omega : n < 65536))]
      · simp [length_toBytesNat, h1, h2]
      · simp [h1, h2]
    · by_cases h3 : n < 16777215
      · refine ⟨253 :: toBytesNat 3 n, ?_, ?_, ?_, ?_⟩
        · rw [writeLenencInt, if_neg h1, if_neg h2, if_pos h3]
          rw [toBytes_eq_some 1 253 (by norm_num),
            toBytes_eq_some 3 n (by simpa using (by omega : n < 16777216))]
          rfl
        · rw [List.cons_append, readLenencInt_fd _ _ (length_toBytesNat 3 n),
            toInt_toBytesNat 3 n (by simpa using (by omega : n < 16777216))]
        · simp [length_toBytesNat, h1, h2, h3]
        · simp [h1, h2, h3]
      · refine ⟨254 :: toBytesNat 8 n, ?_, ?_, ?_, ?_⟩
        · rw [writeLenencInt, if_neg h1, if_neg h2, if_neg h3]
          rw [toBytes_eq_some 1 254 (by norm_num),
            toBytes_eq_some 8 n (by simpa using h)]
          rfl
        · rw [List.cons_append, readLenencInt_fe _ _ (length_toBytesNat 8 n),
            toInt_toBytesNat 8 n (by simpa using h)]
        · simp [length_toBytesNat, h1, h2, h3]
        · simp [h1, h2, h3]

theorem lenenc_roundtrip_witness :
    (300 : Nat) < 2 ^ 64 ∧
    (∃ bs, writeLenencInt 300 = some bs ∧
      readLenencInt (bs ++ [1, 2]) = some (300, [1, 2]) ∧
      bs.length =
        (if (300 : Nat) < 0xfb then 1 else if (300 : Nat) < 65535 then 3
         else if (300 : Nat) < 16777215 then 4 else 9) ∧
      bs.head? =
        (if (300 : Nat) < 0xfb then some 300
         else if (300 : Nat) < 65535 then some 0xfc
         else if (300 : Nat) < 16777215 then some 0xfd else some 0xfe)) :=
  ⟨by norm_num, lenenc_roundtrip 300 [1, 2] (by norm_num)⟩

/-- C6, counterexample to the claim as stated: the writer does not pick
the minimal tag width at the boundary values.  `65535 = 2¹⁶ − 1` is
encoded with tag `0xfd` and three value bytes (four bytes in all)
although the claim demands `0xfc` with a u16, and `16777215 = 2²⁴ − 1`
is encoded with tag `0xfe` and a u64 although the claim demands `0xfd`
with a u24. -/
theorem lenenc_minimal_tag_counterexample :
    writeLenencInt 65535 = some [0xfd, 0xff, 0xff, 0x00] ∧
    (65535 : Nat) ≤ 2 ^ 16 - 1 ∧
    writeLenencInt 16777215
      = some [0xfe, 0xff, 0xff, 0xff, 0x00, 0x00, 0x00, 0x00, 0x00] ∧
    (16777215 : Nat) ≤ 2 ^ 24 - 1 := by decide

/-- C9, counterexample to the claim as stated: neither a fixed-width
read past the end of the buffer nor a null-terminated read without a
terminator raises an error.  `Reader._splice` slices (returning only
the available bytes) and `Reader.bytes_null` partitions (returning the
whole buffer when no 0 byte exists); both are total. -/
theorem reader_truncation_counterexample :
    splice [97, 98] 4 = ([97, 98], []) ∧
    readIntFW 4 [97, 98] = (25185, []) ∧
    bytesNull [97, 98] = ([97, 98], []) := by decide

/-- C9 (amended).  The byte codec reader errors only in the
length-encoded-integer position: lead byte `0xfb` or `0xff` (and the
empty buffer) fail there.  A null-terminated read whose buffer has no
`0x00` byte returns the entire remaining buffer without error, and a
fixed-width read requesting more bytes than remain returns just the
available bytes without error. -/
theorem reader_error_behavior :
    (∀ data : List Nat, data.head? = some 0xfb → readLenencInt data = none) ∧
    (∀ data : List Nat, data.head? = some 0xff → readLenencInt data = none) ∧
    (∀ data : List Nat, (∀ b ∈ data, b ≠ 0) → bytesNull data = (data, [])) ∧
    (∀ (n : Nat) (data : List Nat), data.length ≤ n →
      splice data n = (data, [])) := by
  refine ⟨?_, ?_, ?_, ?_⟩
  · intro data h
    cases data with
    | nil => simp at h
    | cons b bs =>
      simp at h
      subst h
      simp [readLenencInt]
  · intro data h
    cases data with
    | nil => simp at h
    | cons b bs =>
      simp at h
      subst h
      simp [readLenencInt]
  · intro data h
    have h1 : data.takeWhile (fun b => b != 0) = data := by
      induction data with
      | nil => rfl
      | cons b bs ih =>
        rw [List.takeWhile_cons, if_pos (by simpa using h b (by simp)),
          ih (fun x hx => h x (by simp [hx]))]
    have h2 : data.dropWhile (fun b => b != 0) = [] := by
      clear h1
      induction data with
      | nil => rfl
      | cons b bs ih =>
        rw [List.dropWhile_cons, if_pos (by simpa using h b (by simp)),
          ih (fun x hx => h x (by simp [hx]))]
    rw [bytesNull, h1, h2]
    rfl
  · intro n data h
    rw [splice, List.take_of_length_le h, List.drop_eq_nil_of_le h]

theorem reader_error_behavior_witness :
    readLenencInt [0xfb, 1] = none ∧
    readLenencInt [0xff] = none ∧
    bytesNull [5, 6] = ([5, 6], []) ∧
    splice [5, 6] 9 = ([5, 6], []) :=
  ⟨reader_error_behavior.1 [0xfb, 1] rfl,
   reader_error_behavior.2.1 [0xff] rfl,
   reader_error_behavior.2.2.1 [5, 6] (by decide),
   reader_error_behavior.2.2.2 9 [5, 6] (by norm_num)⟩

/-! ## Plain packet framer (`protocol/wire/plain.py`, `protocol/wire/common.py`) -/

/-- `RawPacket`, from `protocol/wire/plain.py`. -/
structure RawPacket where
  length : Nat
  seq : Nat
  body : List Nat
deriving DecidableEq

/-- The wire image `[u24 length][u8 seq][body]` produced by `to_wire`
when all fields are in range. -/
def toWireU (p : RawPacket) : List Nat :=
  toBytesNat 3 p.length ++ toBytesNat 1 p.seq ++ p.body

/-- `to_wire`, from `protocol/wire/plain.py`: `writer.int` raises
`OverflowError` on out-of-range fields and `writer.bytes` raises
`ValueError` when the body is longer than the declared length;
both modelled by `none`. -/
def toWire (p : RawPacket) : Option (List Nat) := do
  let l ← toBytes 3 p.length
  let s ← toBytes 1 p.seq
  if p.length < p.body.length then none else pure (l ++ s ++ p.body)

/-- The loop `for i in range(0, length, MAX_PACKET): yield data[i:i+MAX_PACKET]`
of `split` / `_split_packets`, with fuel (one unit per emitted chunk). -/
def chunksLoop : Nat → List Nat → List (List Nat)
  | 0, _ => []
  | fuel + 1, data =>
    if data.isEmpty then []
    else data.take MAX_PACKET :: chunksLoop fuel (data.drop MAX_PACKET)

/-- `split`, from `protocol/wire/common.py` (same chunking as
`ProtoPlain._split_packets` in `protocol/wire/plain.py`): chunk into
`MAX_PACKET`-byte pieces, and append one empty chunk whenever
`length % MAX_PACKET == 0` (this covers the empty message as well). -/
def splitMessage (data : List Nat) : List (List Nat) :=
  chunksLoop data.length data ++
    (if data.length % MAX_PACKET = 0 then [[]] else [])

/-- `_create_packet` applied along a chunk list: each fragment takes the
current sequence number and advances it modulo 256. -/
def mkPackets : Nat → List (List Nat) → List RawPacket
  | _, [] => []
  | s, c :: cs => ⟨c.length, s, c⟩ :: mkPackets (nextSeq s) cs

/-- The bytes `ProtoPlain.send` emits for message `data` starting at
sequence `s`: each fragment of the split serialized by `to_wire`, in
order.  (`send` routes small messages through `_send_small` and large
ones through `_send_big`; both emit exactly the fragments of the
split.)  `none` models an exception while serializing. -/
def sendBytes (s : Nat) (data : List Nat) : Option (List Nat) :=
  ((mkPackets s (splitMessage data)).mapM toWire).map List.flatten

/-- `read_packet`, from `protocol/wire/plain.py`: read the 4-byte header,
then exactly `length` body bytes.  `none` models the `IncompleteReadError`
when the stream is too short. -/
def readPacketBytes (stream : List Nat) : Option (RawPacket × List Nat) :=
  if stream.length < 4 then none
  else if (stream.drop 4).length < toInt (stream.take 3) then none
  else some
    (⟨toInt (stream.take 3), toInt ((stream.drop 3).take 1),
      (stream.drop 4).take (toInt (stream.take 3))⟩,
     (stream.drop 4).drop (toInt (stream.take 3)))

/-- Outcome of `parse_packet_from_stream`: a reassembled message with the
next expected sequence and the unconsumed stream, a sequence mismatch
(`ValueError('Unexpected sequence!')`), or an I/O failure. -/
inductive RecvResult
  | ok : Nat → List Nat → List Nat → RecvResult
  | seqError : Nat → Nat → RecvResult
  | ioError : RecvResult
deriving DecidableEq

/-- The `while not last` loop of `parse_packet_from_stream`
(`protocol/wire/plain.py`): check the fragment sequence against the
expected value (`None` adopts the incoming sequence, as the handshake
framer does on its first read), append the body, stop at the first
fragment with `length < MAX_PACKET`. -/
def recvLoop : Nat → List Nat → Option Nat → List Nat → RecvResult
  | 0, _, _, _ => RecvResult.ioError
  | fuel + 1, stream, expected, acc =>
    match readPacketBytes stream with
    | none => RecvResult.ioError
    | some (p, rest) =>
      match expected with
      | some s =>
        if p.seq ≠ s then RecvResult.seqError s p.seq
        else if p.length < MAX_PACKET then
          RecvResult.ok (nextSeq p.seq) (acc ++ p.body) rest
        else recvLoop fuel rest (some (nextSeq p.seq)) (acc ++ p.body)
      | none =>
        if p.length < MAX_PACKET then
          RecvResult.ok (nextSeq p.seq) (acc ++ p.body) rest
        else recvLoop fuel rest (some (nextSeq p.seq)) (acc ++ p.body)

/-- `parse_packet_from_stream` on a byte stream.  Every loop iteration
consumes at least 4 bytes, so `stream.length + 1` rounds of fuel are
never exhausted before the stream is. -/
def recvMessage (stream : List Nat) (expected : Option Nat) : RecvResult :=
  recvLoop (stream.length + 1) stream expected []

/-- Chunk lists produced by `split`: every chunk before the last is
exactly `MAX_PACKET` bytes and the last is strictly shorter. -/
def wfChunks : List (List Nat) → Prop
  | [] => False
  | [c] => c.length < MAX_PACKET
  | c :: c2 :: cs => c.length = MAX_PACKET ∧ wfChunks (c2 :: cs)

theorem toWireU_length (p : RawPacket) :
    (toWireU p).length = 4 + p.body.length := by
  simp [toWireU, length_toBytesNat]; omega

theorem toWire_eq_some (p : RawPacket) (hl : p.length < 2 ^ 24)
    (hs : p.seq < 256) (hb : p.body.length = p.length) :
    toWire p = some (toWireU p) := by
  rw [toWire, toBytes_eq_some 3 p.length (by norm_num at hl ⊢; omega),
    toBytes_eq_some 1 p.seq (by simpa using hs)]
  show (if p.length < p.body.length then (none : Option (List Nat))
    else pure (toBytesNat 3 p.length ++ toBytesNat 1 p.seq ++ p.body))
      = some (toWireU p)
  rw [if_neg (by omega)]
  rfl

theorem readPacketBytes_toWireU (p : RawPacket) (rest : List Nat)
    (hl : p.length < 2 ^ 24) (hs : p.seq < 256)
    (hb : p.body.length = p.length) :
    readPacketBytes (toWireU p ++ rest) = some (p, rest) := by
  obtain ⟨l, sq, body⟩ := p
  simp only at hl hs hb
  have h3 : (toBytesNat 3 l).length = 3 := length_toBytesNat 3 l
  have h1 : (toBytesNat 1 sq).length = 1 := length_toBytesNat 1 sq
  have hstream : toWireU ⟨l, sq, body⟩ ++ rest =
      toBytesNat 3 l ++ (toBytesNat 1 sq ++ (body ++ rest)) := by
    simp [toWireU]
  have hstream4 : toWireU ⟨l, sq, body⟩ ++ rest =
      (toBytesNat 3 l ++ toBytesNat 1 sq) ++ (body ++ rest) := by
    simp [toWireU]
  have hlen : (toWireU ⟨l, sq, body⟩ ++ rest).length =
      4 + body.length + rest.length := by
    simp only [List.length_append, toWireU_length]
  have htake3 : (toWireU ⟨l, sq, body⟩ ++ rest).take 3 = toBytesNat 3 l := by
    rw [hstream, List.take_left' h3]
  have hdrop3 : (toWireU ⟨l, sq, body⟩ ++ rest).drop 3 =
      toBytesNat 1 sq ++ (body ++ rest) := by
    rw [hstream, List.drop_left' h3]
  have hdrop4 : (toWireU ⟨l, sq, body⟩ ++ rest).drop 4 = body ++ rest := by
    rw [hstream4, List.drop_left' (by simp [h3, h1])]
  rw [readPacketBytes, htake3, hdrop3, hdrop4, List.take_left' h1,
    toInt_toBytesNat 3 l (by norm_num at hl ⊢; omega),
    toInt_toBytesNat 1 sq (by simpa using hs)]
  rw [if_neg (by omega),
    if_neg (by simp only [List.length_append]; omega),
    List.take_left' hb, List.drop_left' hb]

theorem wfChunks_ne_nil {cs : List (List Nat)} (h : wfChunks cs) :
    cs ≠ [] := by
  cases cs with
  | nil => exact absurd h (by simp [wfChunks])
  | cons c cs => simp

theorem wfChunks_cons (c : List Nat) (cs : List (List Nat))
    (h : cs ≠ []) :
    wfChunks (c :: cs) ↔ c.length = MAX_PACKET ∧ wfChunks cs := by
  cases cs with
  | nil => exact absurd rfl h
  | cons c2 cs => rfl

theorem mkPackets_cons (s : Nat) (c : List Nat) (cs : List (List Nat)) :
    mkPackets s (c :: cs) =
      RawPacket.mk c.length s c :: mkPackets (nextSeq s) cs := rfl

theorem mkPackets_fits (cs : List (List Nat)) :
    ∀ s : Nat, s < 256 → (∀ c ∈ cs, c.length ≤ MAX_PACKET) →
      ∀ p ∈ mkPackets s cs, toWire p = some (toWireU p) := by
  induction cs with
  | nil => intro s _ _ p hp; simp [mkPackets] at hp
  | cons c cs ih =>
    intro s hs hlen p hp
    rw [mkPackets_cons] at hp
    rcases List.mem_cons.mp hp with h | h
    · subst h
      exact toWire_eq_some _
        (by have := hlen c (by simp); simp [MAX_PACKET] at this ⊢; omega)
        hs rfl
    · exact ih (nextSeq s) (Nat.mod_lt _ (by norm_num))
        (fun d hd => hlen d (by simp [hd])) p h

theorem mapM_toWire_eq (ps : List RawPacket)
    (h : ∀ p ∈ ps, toWire p = some (toWireU p)) :
    ps.mapM toWire = some (ps.map toWireU) := by
  induction ps with
  | nil => rfl
  | cons p ps ih =>
    rw [List.mapM_cons, h p (by simp), ih (fun q hq => h q (by simp [hq]))]
    rfl

theorem recvLoop_step (fuel : Nat) (stream : List Nat) (l sq : Nat)
    (body rest acc : List Nat) (s : Nat)
    (h : readPacketBytes stream = some (⟨l, sq, body⟩, rest)) :
    recvLoop (fuel + 1) stream (some s) acc =
      (if sq ≠ s then RecvResult.seqError s sq
       else if l < MAX_PACKET then
         RecvResult.ok (nextSeq sq) (acc ++ body) rest
       else recvLoop fuel rest (some (nextSeq sq)) (acc ++ body)) := by
  rw [recvLoop, h]

theorem recvLoop_mkPackets (cs : List (List Nat)) :
    ∀ (s fuel : Nat) (acc rest : List Nat),
      s < 256 → wfChunks cs → cs.length ≤ fuel →
      recvLoop fuel (((mkPackets s cs).map toWireU).flatten ++ rest)
          (some s) acc
        = RecvResult.ok ((s + cs.length) % 256) (acc ++ cs.flatten) rest := by
  induction cs with
  | nil => intro s fuel acc rest _ hwf _; exact absurd hwf (by simp [wfChunks])
  | cons c cs ih =>
    intro s fuel acc rest hs hwf hfuel
    obtain ⟨fuel, rfl⟩ : ∃ f, fuel = f + 1 := by
      cases fuel with
      | zero => simp at hfuel
      | succ f => exact ⟨f, rfl⟩
    cases cs with
    | nil =>
      have hlt : c.length < MAX_PACKET := hwf
      rw [mkPackets_cons]
      simp only [mkPackets, List.map_cons, List.map_nil,
        List.flatten_cons, List.flatten_nil, List.append_nil]
      rw [recvLoop_step fuel _ c.length s c rest acc s
        (readPacketBytes_toWireU ⟨c.length, s, c⟩ rest
          (by simp [MAX_PACKET] at hlt ⊢; omega) hs rfl)]
      rw [if_neg (by omega), if_pos hlt]
      simp [nextSeq]
    | cons c2 cs2 =>
      rw [wfChunks_cons c (c2 :: cs2) (by simp)] at hwf
      obtain ⟨hcM, hwf2⟩ := hwf
      have hs2 : nextSeq s < 256 := Nat.mod_lt _ (by norm_num)
      have hfuel2 : (c2 :: cs2).length ≤ fuel := by
        simp at hfuel ⊢; omega
      have ihr := ih (nextSeq s) fuel (acc ++ c) rest hs2 hwf2 hfuel2
      rw [mkPackets_cons, List.map_cons, List.flatten_cons,
        List.append_assoc]
      rw [recvLoop_step fuel _ c.length s c _ acc s
        (readPacketBytes_toWireU ⟨c.length, s, c⟩ _
          (by simp [MAX_PACKET] at hcM ⊢; omega) hs rfl)]
      rw [if_neg (by omega), if_neg (by rw [hcM]; exact Nat.lt_irrefl _)]
      rw [ihr]
      have hmod : (nextSeq s + (c2 :: cs2).length) % 256 =
          (s + (c :: c2 :: cs2).length) % 256 := by
        simp only [nextSeq, List.length_cons]
        omega
      rw [hmod]
      simp

theorem chunksLoop_nil (fuel : Nat) : chunksLoop fuel [] = [] := by
  cases fuel <;> simp [chunksLoop]

theorem chunksLoop_congr :
    ∀ (f1 f2 : Nat) (data : List Nat), data.length ≤ f1 →
      data.length ≤ f2 → chunksLoop f1 data = chunksLoop f2 data := by
  intro f1
  induction f1 with
  | zero =>
    intro f2 data h1 _
    have : data = [] := by
      cases data with
      | nil => rfl
      | cons a as => simp at h1
    subst this
    rw [chunksLoop_nil, chunksLoop_nil]
  | succ f1 ih =>
    intro f2 data h1 h2
    cases data with
    | nil => rw [chunksLoop_nil, chunksLoop_nil]
    | cons a as =>
      obtain ⟨f2, rfl⟩ : ∃ g, f2 = g + 1 := by
        cases f2 with
        | zero => simp at h2
        | succ g => exact ⟨g, rfl⟩
      simp only [chunksLoop, List.isEmpty_cons, Bool.false_eq_true,
        if_false]
      rw [ih f2 ((a :: as).drop MAX_PACKET)
        (by simp [MAX_PACKET] at h1 ⊢; omega)
        (by simp [MAX_PACKET] at h2 ⊢; omega)]

theorem chunksLoop_eq (data : List Nat) (h : data ≠ []) :
    chunksLoop data.length data =
      data.take MAX_PACKET ::
        chunksLoop (data.drop MAX_PACKET).length (data.drop MAX_PACKET) := by
  cases data with
  | nil => exact absurd rfl h
  | cons a as =>
    simp only [List.length_cons, chunksLoop, List.isEmpty_cons,
      Bool.false_eq_true, if_false]
    rw [chunksLoop_congr as.length ((a :: as).drop MAX_PACKET).length
      ((a :: as).drop MAX_PACKET)
      (by simp only [List.length_drop, List.length_cons, MAX_PACKET]; omega)
      (le_refl _)]

theorem MAX_PACKET_pos : 0 < MAX_PACKET := by norm_num [MAX_PACKET]

theorem splitMessage_nil : splitMessage [] = [[]] := by
  rw [splitMessage, chunksLoop_nil]
  simp

theorem splitMessage_spec_nil :
    wfChunks (splitMessage []) ∧
    (splitMessage []).flatten = [] ∧
    (splitMessage []).length = ([] : List Nat).length / MAX_PACKET + 1 ∧
    (∀ c ∈ splitMessage [], c.length ≤ MAX_PACKET) := by
  refine ⟨?_, ?_, ?_, ?_⟩
  · rw [splitMessage_nil]; exact MAX_PACKET_pos
  · rw [splitMessage_nil]; rfl
  · rw [splitMessage_nil]; simp
  · intro c hc
    rw [splitMessage_nil] at hc
    simp at hc
    subst hc
    simp

theorem splitMessage_spec :
    ∀ (fuel : Nat) (data : List Nat), data.length ≤ fuel →
      wfChunks (splitMessage data) ∧
      (splitMessage data).flatten = data ∧
      (splitMessage data).length = data.length / MAX_PACKET + 1 ∧
      (∀ c ∈ splitMessage data, c.length ≤ MAX_PACKET) := by
  intro fuel
  induction fuel with
  | zero =>
    intro data h
    have : data = [] := by
      cases data with
      | nil => rfl
      | cons a as => simp at h
    subst this
    exact splitMessage_spec_nil
  | succ fuel ih =>
    intro data h
    by_cases hnil : data = []
    · subst hnil
      exact splitMessage_spec_nil
    · have hpos : 0 < data.length := List.length_pos.mpr hnil
      by_cases hM : data.length ≤ MAX_PACKET
      · have htake : data.take MAX_PACKET = data :=
          List.take_of_length_le hM
        have hdrop : data.drop MAX_PACKET = [] :=
          List.drop_eq_nil_of_le hM
        have hchunks : chunksLoop data.length data = [data] := by
          rw [chunksLoop_eq data hnil, htake, hdrop, chunksLoop_nil]
        by_cases hmod : data.length % MAX_PACKET = 0
        · have hlenM : data.length = MAX_PACKET := by
            have hM0 : (MAX_PACKET : Nat) ≠ 0 := by simp [MAX_PACKET]
            rcases Nat.lt_or_ge data.length MAX_PACKET with hlt | hge
            · rw [Nat.mod_eq_of_lt hlt] at hmod; omega
            · omega
          have hsplit : splitMessage data = [data, []] := by
            rw [splitMessage, hchunks, if_pos hmod]
            rfl
          refine ⟨?_, ?_, ?_, ?_⟩
          · rw [hsplit]
            exact ⟨hlenM, MAX_PACKET_pos⟩
          · simp [hsplit]
          · rw [hsplit, hlenM]
            simp [Nat.div_self MAX_PACKET_pos]
          · intro c hc
            rw [hsplit] at hc
            simp at hc
            rcases hc with rfl | rfl
            · omega
            · simp
        · have hsplit : splitMessage data = [data] := by
            rw [splitMessage, hchunks, if_neg hmod]
            simp
          have hlt : data.length < MAX_PACKET := by
            rcases Nat.lt_or_ge data.length MAX_PACKET with hlt | hge
            · exact hlt
            · exfalso
              have : data.length = MAX_PACKET := by omega
              rw [this, Nat.mod_self] at hmod
              exact hmod rfl
          refine ⟨?_, ?_, ?_, ?_⟩
          · rw [hsplit]; exact hlt
          · simp [hsplit]
          · rw [hsplit, Nat.div_eq_of_lt hlt]
            rfl
          · intro c hc
            rw [hsplit] at hc
            simp at hc
            subst hc
            omega
      · push_neg at hM
        have hdropne : data.drop MAX_PACKET ≠ [] := by
          intro hcon
          have := List.length_drop MAX_PACKET data ▸
            congrArg List.length hcon
          simp at this
          omega
        have hdlen : (data.drop MAX_PACKET).length =
            data.length - MAX_PACKET := List.length_drop _ _
        have hihlen : (data.drop MAX_PACKET).length ≤ fuel := by
          rw [hdlen]
          have : (0 : Nat) < MAX_PACKET := by simp [MAX_PACKET]
          omega
        obtain ⟨ihwf, ihflat, ihlen, ihmem⟩ := ih (data.drop MAX_PACKET) hihlen
        have hmodeq : (data.drop MAX_PACKET).length % MAX_PACKET =
            data.length % MAX_PACKET := by
          rw [hdlen]
          simp only [MAX_PACKET] at hM ⊢
          omega
        have hstep : splitMessage data =
            data.take MAX_PACKET :: splitMessage (data.drop MAX_PACKET) := by
          rw [splitMessage, splitMessage, chunksLoop_eq data hnil, hmodeq]
          exact List.cons_append _ _ _
        have htakelen : (data.take MAX_PACKET).length = MAX_PACKET := by
          simp
          omega
        refine ⟨?_, ?_, ?_, ?_⟩
        · rw [hstep,
            wfChunks_cons _ _ (wfChunks_ne_nil ihwf)]
          exact ⟨htakelen, ihwf⟩
        · rw [hstep]
          simp only [List.flatten_cons, ihflat]
          exact List.take_append_drop _ _
        · rw [hstep]
          simp only [List.length_cons, ihlen, hdlen]
          simp only [MAX_PACKET] at hM ⊢
          omega
        · intro c hc
          rw [hstep] at hc
          rcases List.mem_cons.mp hc with h | h
          · subst h; omega
          · exact ihmem c h

theorem length_flatten_mkPackets (cs : List (List Nat)) :
    ∀ s : Nat, cs.length ≤ (((mkPackets s cs).map toWireU).flatten).length := by
  induction cs with
  | nil => intro s; simp [mkPackets]
  | cons c cs ih =>
    intro s
    rw [mkPackets_cons, List.map_cons, List.flatten_cons]
    have := ih (nextSeq s)
    simp only [List.length_append, List.length_cons, toWireU_length]
    omega

theorem sendBytes_eq (m : List Nat) (s : Nat) (hs : s < 256) :
    sendBytes s m = some ((mkPackets s (splitMessage m)).map toWireU).flatten := by
  obtain ⟨_, _, _, hmem⟩ := splitMessage_spec m.length m (le_refl _)
  rw [sendBytes, mapM_toWire_eq _ (mkPackets_fits _ s hs hmem)]
  rfl

theorem mkPackets_seqs (cs : List (List Nat)) :
    ∀ s : Nat, s < 256 →
      (mkPackets s cs).map RawPacket.seq
        = (List.range cs.length).map (fun i => (s + i) % 256) := by
  induction cs with
  | nil => intro s _; rfl
  | cons c cs ih =>
    intro s hs
    rw [mkPackets_cons, List.map_cons, List.length_cons,
      List.range_succ_eq_map, List.map_cons, List.map_map,
      ih (nextSeq s) (Nat.mod_lt _ (by norm_num))]
    congr 1
    · simp [Nat.mod_eq_of_lt hs]
    · refine List.map_congr_left ?_
      intro i _
      simp only [Function.comp_apply, nextSeq]
      omega

theorem recvMessage_sendBytes (m : List Nat) (s : Nat) (hs : s < 256) :
    recvMessage (((mkPackets s (splitMessage m)).map toWireU).flatten)
        (some s)
      = RecvResult.ok ((s + (splitMessage m).length) % 256) m [] := by
  obtain ⟨hwf, hflat, _, _⟩ := splitMessage_spec m.length m (le_refl _)
  have hfuel : (splitMessage m).length ≤
      (((mkPackets s (splitMessage m)).map toWireU).flatten).length + 1 :=
    le_trans (length_flatten_mkPackets _ s) (Nat.le_succ _)
  have h := recvLoop_mkPackets (splitMessage m) s
    ((((mkPackets s (splitMessage m)).map toWireU).flatten).length + 1)
    [] [] hs hwf hfuel
  rw [recvMessage]
  rw [List.append_nil] at h
  rw [h, hflat]
  rfl

/-- C1.  Fragmentation round trip for the plain framer
(`ProtoPlain._split_packets` + `parse_packet_from_stream`): sending any
message `m` starting at sequence `s` and parsing the emitted bytes
yields exactly `m`; the number of fragments is `⌈|m|/(2²⁴−1)⌉` when
`|m| mod (2²⁴−1) ≠ 0` and `|m|/(2²⁴−1) + 1` otherwise; an exact
multiple of `2²⁴−1` ends with an empty fragment and the empty message
is emitted as exactly one empty fragment. -/
theorem plain_fragmentation_roundtrip (m : List Nat) (s : Nat)
    (hs : s < 256) :
    ∃ w, sendBytes s m = some w ∧
      recvMessage w (some s)
        = RecvResult.ok ((s + (splitMessage m).length) % 256) m [] ∧
      (splitMessage m).length =
        (if m.length % (2 ^ 24 - 1) ≠ 0 then
          (m.length + (2 ^ 24 - 1) - 1) / (2 ^ 24 - 1)
         else m.length / (2 ^ 24 - 1) + 1) ∧
      (m.length % (2 ^ 24 - 1) = 0 → (splitMessage m).getLast? = some []) ∧
      (m = [] → splitMessage m = [[]]) := by
  have hMeq : (2 ^ 24 - 1 : Nat) = MAX_PACKET := by norm_num [MAX_PACKET]
  obtain ⟨hwf, hflat, hlen, _⟩ := splitMessage_spec m.length m (le_refl _)
  refine ⟨((mkPackets s (splitMessage m)).map toWireU).flatten,
    sendBytes_eq m s hs, recvMessage_sendBytes m s hs, ?_, ?_, ?_⟩
  · rw [hMeq, hlen]
    by_cases hmod : m.length % MAX_PACKET = 0
    · rw [if_neg (by simpa using hmod)]
    · rw [if_pos hmod]
      simp only [MAX_PACKET] at hmod ⊢
      omega
  · intro hmod
    rw [hMeq] at hmod
    rw [splitMessage, if_pos hmod]
    exact List.getLast?_concat _
  · intro hm
    subst hm
    exact splitMessage_nil

theorem plain_fragmentation_roundtrip_witness :
    (0 : Nat) < 256 ∧
    (∃ w, sendBytes 0 [7, 8] = some w ∧
      recvMessage w (some 0)
        = RecvResult.ok ((0 + (splitMessage [7, 8]).length) % 256) [7, 8] [] ∧
      (splitMessage [7, 8]).length =
        (if ([7, 8] : List Nat).length % (2 ^ 24 - 1) ≠ 0 then
          (([7, 8] : List Nat).length + (2 ^ 24 - 1) - 1) / (2 ^ 24 - 1)
         else ([7, 8] : List Nat).length / (2 ^ 24 - 1) + 1) ∧
      (([7, 8] : List Nat).length % (2 ^ 24 - 1) = 0 →
        (splitMessage [7, 8]).getLast? = some []) ∧
      (([7, 8] : List Nat) = [] → splitMessage [7, 8] = [[]])) :=
  ⟨by norm_num, plain_fragmentation_roundtrip [7, 8] 0 (by norm_num)⟩

/-- C3.  Sequence continuity: a single send starting at sequence `s`
with `k` fragments writes the sequence numbers `s, s+1, …, s+k−1`
(mod 256); on the read side a fragment whose sequence differs from the
expected value makes `parse_packet_from_stream` fail with the sequence
error instead of returning a message. -/
theorem sequence_continuity :
    (∀ (s : Nat) (m : List Nat), s < 256 →
      (mkPackets s (splitMessage m)).map RawPacket.seq
        = (List.range (splitMessage m).length).map (fun i => (s + i) % 256)) ∧
    (∀ (fuel : Nat) (stream : List Nat) (p : RawPacket)
        (rest acc : List Nat) (s : Nat),
      readPacketBytes stream = some (p, rest) → p.seq ≠ s →
      recvLoop (fuel + 1) stream (some s) acc
        = RecvResult.seqError s p.seq) := by
  constructor
  · intro s m hs
    exact mkPackets_seqs (splitMessage m) s hs
  · intro fuel stream p rest acc s h1 h2
    obtain ⟨l, sq, body⟩ := p
    simp only at h2 ⊢
    rw [recvLoop_step fuel stream l sq body rest acc s h1, if_pos h2]

theorem sequence_continuity_witness :
    ((mkPackets 3 (splitMessage [9])).map RawPacket.seq
      = (List.range (splitMessage [9]).length).map (fun i => (3 + i) % 256)) ∧
    (recvLoop (0 + 1) (toWireU ⟨1, 5, [9]⟩) (some 4) []
      = RecvResult.seqError 4 5) :=
  ⟨sequence_continuity.1 3 [9] (by norm_num),
   sequence_continuity.2 0 (toWireU ⟨1, 5, [9]⟩) ⟨1, 5, [9]⟩ [] [] 4
     (by decide) (by norm_num)⟩

/-! ## Compressed framer (`protocol/wire/compressed.py`)

`zlib.compress` / `zlib.decompress` are opaque byte transformations to
this layer; the framer's logic never inspects their output beyond its
length, so both are modelled as function parameters `comp` / `decomp`. -/

/-- `RawCompressedPacket`, from `protocol/wire/compressed.py`. -/
structure RawCompressedPacket where
  length : Nat
  seq : Nat
  uncompressedLength : Nat
  compressed : List Nat
deriving DecidableEq

/-- `compressed(seq, body)`, from `protocol/wire/compressed.py`:
the zlib-compressed envelope, `uncompressed_length = len(body)`. -/
def mkCompressed (comp : List Nat → List Nat) (seq : Nat)
    (body : List Nat) : RawCompressedPacket :=
  ⟨(comp body).length, seq, body.length, comp body⟩

/-- `compressed_plain(seq, body)`, from `protocol/wire/compressed.py`:
the verbatim envelope, `uncompressed_length = 0`. -/
def mkCompressedPlain (seq : Nat) (body : List Nat) : RawCompressedPacket :=
  ⟨body.length, seq, 0, body⟩

/-- `to_wire_compressed`, from `protocol/wire/compressed.py`:
`[u24 length][u8 seq][u24 uncompressed_length][payload]`; `none` models
`OverflowError` on a field that does not fit its width and the
`ValueError` of `writer.bytes` on an over-long payload. -/
def toWireCompressed (p : RawCompressedPacket) : Option (List Nat) := do
  let l ← toBytes 3 p.length
  let s ← toBytes 1 p.seq
  let u ← toBytes 3 p.uncompressedLength
  if p.length < p.compressed.length then none else pure (l ++ s ++ u ++ p.compressed)

/-- `ProtoCompressed._send_small`: frame `data` as one inner plain
packet (at inner sequence `innerSeq`), then wrap those wire bytes in a
single outer envelope at outer sequence `outerSeq`; zlib-compress iff
`len(data) > threshold`. -/
def sendSmallEnvelope (comp : List Nat → List Nat)
    (threshold innerSeq outerSeq : Nat) (data : List Nat) :
    RawCompressedPacket :=
  if threshold < data.length then
    mkCompressed comp outerSeq (toWireU ⟨data.length, innerSeq, data⟩)
  else
    mkCompressedPlain outerSeq (toWireU ⟨data.length, innerSeq, data⟩)

/-- The loop of `ProtoCompressed._compress_packets` over the wire
images of the inner packets: accumulate into `buffer` while
`len(buffer) + len(packet) < MAX_PACKET`, otherwise flush the current
buffer as a zlib envelope and restart the buffer from the packet; at
the end flush a nonempty buffer and add an empty trailing envelope when
it was exactly `MAX_PACKET` long.  Returns the envelopes and the final
outer sequence. -/
def compressLoop (comp : List Nat → List Nat) :
    List (List Nat) → Nat → List Nat →
      List RawCompressedPacket × Nat
  | [], seq, buffer =>
    if buffer = [] then ([], seq)
    else if buffer.length = MAX_PACKET then
      ([mkCompressed comp seq buffer,
        ⟨0, nextSeq seq, 0, []⟩], nextSeq (nextSeq seq))
    else ([mkCompressed comp seq buffer], nextSeq seq)
  | w :: ws, seq, buffer =>
    if buffer.length + w.length < MAX_PACKET then
      compressLoop comp ws seq (buffer ++ w)
    else
      let r := compressLoop comp ws (nextSeq seq) w
      (mkCompressed comp seq buffer :: r.1, r.2)

/-- `ProtoCompressed._compress_packets` applied to a packet list. -/
def compressPackets (comp : List Nat → List Nat) (seqOut : Nat)
    (packets : List RawPacket) : List RawCompressedPacket × Nat :=
  compressLoop comp (packets.map toWireU) seqOut []

/-- `read_compressed`, from `protocol/wire/compressed.py`: 7-byte
header `[u24 length][u8 seq][u24 uncompressed_length]`, then exactly
`length` payload bytes. -/
def readCompressedBytes (stream : List Nat) :
    Option (RawCompressedPacket × List Nat) :=
  if stream.length < 7 then none
  else if (stream.drop 7).length < toInt (stream.take 3) then none
  else some
    (⟨toInt (stream.take 3), toInt ((stream.drop 3).take 1),
      toInt ((stream.drop 4).take 3),
      (stream.drop 7).take (toInt (stream.take 3))⟩,
     (stream.drop 7).drop (toInt (stream.take 3)))

/-- What `parse_compressed_from_stream` appends to its buffer for one
envelope: nothing for an empty envelope, otherwise
`decompress(payload)` when `uncompressed_length > 0` and the payload
verbatim when it is 0.  No size comparison is made. -/
def inflate (decomp : List Nat → List Nat)
    (p : RawCompressedPacket) : List Nat :=
  if 0 < p.length then
    (if 0 < p.uncompressedLength then decomp p.compressed else p.compressed)
  else []

/-- The `while not last` loop of `parse_compressed_from_stream`
(`protocol/wire/compressed.py`): sequence check, buffer extension via
`inflate`, stop at the first envelope with `length < MAX_PACKET`. -/
def recvCompressedLoop (decomp : List Nat → List Nat) :
    Nat → List Nat → Nat → List Nat → RecvResult
  | 0, _, _, _ => RecvResult.ioError
  | fuel + 1, stream, seq, buffer =>
    match readCompressedBytes stream with
    | none => RecvResult.ioError
    | some (p, rest) =>
      if p.seq ≠ seq then RecvResult.seqError seq p.seq
      else if p.length < MAX_PACKET then
        RecvResult.ok (nextSeq p.seq) (buffer ++ inflate decomp p) rest
      else recvCompressedLoop decomp fuel rest (nextSeq p.seq)
        (buffer ++ inflate decomp p)

/-- `parse_compressed_from_stream` on a byte stream. -/
def parseCompressedFromStream (decomp : List Nat → List Nat)
    (stream : List Nat) (seq : Nat) : RecvResult :=
  recvCompressedLoop decomp (stream.length + 1) stream seq []

/-- C4, behavior at the failing input.  `parse_compressed_from_stream`
performs no verification of the decompressed size: for the envelope
`[u24 length=1][seq=0][u24 uncompressed_length=5][payload 0x2B]` and
ANY decompressor result `decomp [0x2B]` — in particular one whose
length differs from the declared 5 — the read returns the decompressed
bytes successfully instead of failing with a framing error. -/
theorem compressed_no_length_check :
    ∀ decomp : List Nat → List Nat,
      parseCompressedFromStream decomp [1, 0, 0, 0, 5, 0, 0, 0x2B] 0
        = RecvResult.ok 1 (decomp [0x2B]) [] := by
  intro decomp
  rfl

/-- C5, counterexample to the claim as stated: with threshold 0, the
single-byte packet `[9]` has size `p = 1 > 0`, yet the emitted outer
fragment carries `uncompressed_length = 5` (the framed packet's wire
size `p + 4`), not `p`. -/
theorem threshold_uncompressed_length_counterexample :
    (sendSmallEnvelope id 0 0 0 [9]).uncompressedLength = 5 ∧
    (0 : Nat) < ([9] : List Nat).length ∧
    (sendSmallEnvelope id 0 0 0 [9]).uncompressedLength
      ≠ ([9] : List Nat).length := by decide

/-- C5 (amended).  For a plain packet of size `p` sent through
`ProtoCompressed._send_small`, the outer fragment carries
`uncompressed_length == p + 4` (the wire size of the framed inner
packet, 4-byte header plus body) iff `p > threshold`, with the payload
zlib-compressed; otherwise it carries `uncompressed_length == 0` and
the framed inner packet is stored verbatim. -/
theorem threshold_behavior (comp : List Nat → List Nat)
    (threshold innerSeq outerSeq : Nat) (data : List Nat) :
    ((sendSmallEnvelope comp threshold innerSeq outerSeq data).uncompressedLength
      = if threshold < data.length then data.length + 4 else 0) ∧
    (threshold < data.length →
      (sendSmallEnvelope comp threshold innerSeq outerSeq data).compressed
        = comp (toWireU ⟨data.length, innerSeq, data⟩)) ∧
    (¬ threshold < data.length →
      (sendSmallEnvelope comp threshold innerSeq outerSeq data).compressed
        = toWireU ⟨data.length, innerSeq, data⟩) := by
  by_cases h : threshold < data.length
  · refine ⟨?_, fun _ => ?_, fun hc => absurd h hc⟩
    · simp only [sendSmallEnvelope, mkCompressed, if_pos h, toWireU_length]
      omega
    · rw [sendSmallEnvelope, if_pos h]
      rfl
  · refine ⟨?_, fun hc => absurd hc h, fun _ => ?_⟩
    · rw [sendSmallEnvelope, if_neg h, if_neg h]
      rfl
    · rw [sendSmallEnvelope, if_neg h]
      rfl

theorem threshold_behavior_witness :
    ((sendSmallEnvelope id 2 0 0 [1, 2, 3, 4]).uncompressedLength
      = if (2 : Nat) < ([1, 2, 3, 4] : List Nat).length then
          ([1, 2, 3, 4] : List Nat).length + 4 else 0) ∧
    (sendSmallEnvelope id 2 0 0 [1, 2, 3, 4]).compressed
      = id (toWireU ⟨([1, 2, 3, 4] : List Nat).length, 0, [1, 2, 3, 4]⟩) :=
  ⟨(threshold_behavior id 2 0 0 [1, 2, 3, 4]).1,
   (threshold_behavior id 2 0 0 [1, 2, 3, 4]).2.1 (by norm_num)⟩

/-- C2, behavior at the failing input.  For any message of length
exactly `MAX_PACKET = 2²⁴−1` (inner packets: one full fragment plus the
trailing empty fragment), `ProtoCompressed._compress_packets` emits
three envelopes: a first envelope that zlib-compresses the EMPTY buffer
yet declares `uncompressed_length = 0` (so the receiving side, which
treats `uncompressed_length == 0` as verbatim payload, would append the
zlib bytes of the empty string to the inner stream, corrupting it), and
a second envelope whose `uncompressed_length` is `2²⁴+3`, which does
not fit the u24 wire field — `to_wire_compressed` raises
`OverflowError` (modelled as `none`), so the send crashes instead of
round-tripping.  This holds for every compression function `comp`. -/
theorem compressed_big_message_bug (comp : List Nat → List Nat)
    (data : List Nat) (hdata : data.length = MAX_PACKET) :
    compressPackets comp 0 (mkPackets 0 (splitMessage data))
      = ([mkCompressed comp 0 [],
          mkCompressed comp 1 (toWireU ⟨MAX_PACKET, 0, data⟩),
          mkCompressed comp 2 (toWireU ⟨0, 1, []⟩)], 3) ∧
    (mkCompressed comp 0 []).uncompressedLength = 0 ∧
    (mkCompressed comp 0 []).compressed = comp [] ∧
    (mkCompressed comp 1
        (toWireU ⟨MAX_PACKET, 0, data⟩)).uncompressedLength
      = 2 ^ 24 + 3 ∧
    toWireCompressed (mkCompressed comp 1 (toWireU ⟨MAX_PACKET, 0, data⟩))
      = none := by
  have hne : data ≠ [] := by
    intro hc
    rw [hc] at hdata
    simp [MAX_PACKET] at hdata
  have hsplit : splitMessage data = [data, []] := by
    rw [splitMessage, chunksLoop_eq _ hne,
      List.take_of_length_le (le_of_eq hdata),
      List.drop_eq_nil_of_le (le_of_eq hdata),
      chunksLoop_nil, hdata, if_pos (Nat.mod_self _)]
    rfl
  have hmk : mkPackets 0 (splitMessage data)
      = [⟨MAX_PACKET, 0, data⟩, ⟨0, 1, []⟩] := by
    rw [hsplit, mkPackets_cons, mkPackets_cons, hdata]
    simp [mkPackets, nextSeq]
  have hw1len : (toWireU ⟨MAX_PACKET, 0, data⟩).length
      = MAX_PACKET + 4 := by
    rw [toWireU_length]
    show 4 + data.length = MAX_PACKET + 4
    rw [hdata]
    omega
  have hw2len : (toWireU ⟨0, 1, ([] : List Nat)⟩).length = 4 := by
    rw [toWireU_length]
    rfl
  have hw2ne : toWireU ⟨0, 1, ([] : List Nat)⟩ ≠ [] := by
    intro hc
    have := congrArg List.length hc
    rw [hw2len] at this
    simp at this
  have hc0 : compressLoop comp [] 2 (toWireU ⟨0, 1, ([] : List Nat)⟩)
      = ([mkCompressed comp 2 (toWireU ⟨0, 1, []⟩)], 3) := by
    rw [compressLoop, if_neg hw2ne,
      if_neg (by rw [hw2len]; simp [MAX_PACKET])]
    rfl
  have hc1 : compressLoop comp [toWireU ⟨0, 1, ([] : List Nat)⟩] 1
        (toWireU ⟨MAX_PACKET, 0, data⟩)
      = ([mkCompressed comp 1 (toWireU ⟨MAX_PACKET, 0, data⟩),
          mkCompressed comp 2 (toWireU ⟨0, 1, []⟩)], 3) := by
    rw [compressLoop,
      if_neg (by rw [hw1len, hw2len]; intro hcon; omega),
      show nextSeq 1 = 2 from rfl, hc0]
  have hcmain :
      compressLoop comp
          [toWireU ⟨MAX_PACKET, 0, data⟩,
           toWireU ⟨0, 1, ([] : List Nat)⟩] 0 []
        = ([mkCompressed comp 0 [],
            mkCompressed comp 1 (toWireU ⟨MAX_PACKET, 0, data⟩),
            mkCompressed comp 2 (toWireU ⟨0, 1, []⟩)], 3) := by
    rw [compressLoop,
      if_neg (by rw [List.length_nil, hw1len]; intro hcon; omega),
      show nextSeq 0 = 1 from rfl, hc1]
  refine ⟨?_, rfl, rfl, ?_, ?_⟩
  · rw [compressPackets, hmk, List.map_cons, List.map_cons, List.map_nil,
      hcmain]
  · show (toWireU ⟨MAX_PACKET, 0, data⟩).length = 2 ^ 24 + 3
    rw [hw1len]
    norm_num [MAX_PACKET]
  · rcases h : toBytes 3 ((comp (toWireU ⟨MAX_PACKET, 0, data⟩)).length)
      with _ | cl
    · simp [toWireCompressed, mkCompressed, h]
    · simp [toWireCompressed, mkCompressed, h, toBytes, hw1len, MAX_PACKET]
      intro hcl2
      have h5 := hw1len
      simp only [MAX_PACKET] at h5
      omega

theorem compressed_big_message_bug_witness :
    (List.replicate MAX_PACKET (0 : Nat)).length = MAX_PACKET ∧
    (compressPackets id 0
        (mkPackets 0 (splitMessage (List.replicate MAX_PACKET 0)))
      = ([mkCompressed id 0 [],
          mkCompressed id 1
            (toWireU ⟨MAX_PACKET, 0, List.replicate MAX_PACKET 0⟩),
          mkCompressed id 2 (toWireU ⟨0, 1, []⟩)], 3) ∧
    (mkCompressed id 0 []).uncompressedLength = 0 ∧
    (mkCompressed id 0 []).compressed = id [] ∧
    (mkCompressed id 1
        (toWireU ⟨MAX_PACKET, 0,
          List.replicate MAX_PACKET 0⟩)).uncompressedLength
      = 2 ^ 24 + 3 ∧
    toWireCompressed (mkCompressed id 1
        (toWireU ⟨MAX_PACKET, 0, List.replicate MAX_PACKET 0⟩)) = none) :=
  ⟨List.length_replicate _ _,
   compressed_big_message_bug id (List.replicate MAX_PACKET 0)
     (List.length_replicate _ _)⟩

/-! ## Reply classification (`protocol/packets/readers.py`,
`protocol/packets/general.py`, `protocol/constants.py`)

Capability sets are the `Nat` bit sets of `Capabilities(IntFlag)`;
`flag in capabilities` is a bitwise test.  String fields are kept as
raw byte lists (text decoding is out of scope for these claims). -/

def PROTOCOL_41 : Nat := 2 ^ 9
def TRANSACTIONS : Nat := 2 ^ 13
def SESSION_TRACK : Nat := 2 ^ 23
def DEPRECATE_EOF : Nat := 2 ^ 24
def SESSION_STATE_CHANGED : Nat := 2 ^ 14

/-- Python `IntFlag` membership: `flag in caps ↔ caps & flag == flag`. -/
def flagIn (flag caps : Nat) : Bool := caps &&& flag == flag

/-- `Response(IntEnum)`, from `protocol/constants.py`:
OK = 0, INFILE = 251, EOF = 254, ERR = 255. -/
inductive Response
  | OK
  | INFILE
  | EOF
  | ERR
deriving DecidableEq

def Response.code : Response → Nat
  | OK => 0
  | INFILE => 251
  | EOF => 254
  | ERR => 255

/-- `OKPacket`, from `protocol/packets/general.py`. -/
structure OKPacket where
  header : Nat
  affectedRows : Nat
  lastInsertId : Nat
  statusFlags : Nat
  warnings : Nat
  info : List Nat
  sessionStateInfo : Option (List Nat)
deriving DecidableEq

/-- `ERRPacket`, from `protocol/packets/general.py`. -/
structure ERRPacket where
  header : Nat
  code : Nat
  stateMarker : Option (List Nat)
  state : Option (List Nat)
  error : List Nat
deriving DecidableEq

/-- `EOFPacket`, from `protocol/packets/general.py`. -/
structure EOFPacket where
  header : Nat
  warnings : Option Nat
  statusFlags : Option Nat
deriving DecidableEq

/-- `InfilePacket`, from `protocol/packets/general.py`. -/
structure InfilePacket where
  header : Nat
  filename : List Nat
deriving DecidableEq

/-- `bytes_lenenc` on the reader: a lenenc length then that many bytes
(silently truncated if fewer remain, as `_splice` is). -/
def readBytesLenenc (data : List Nat) : Option (List Nat × List Nat) :=
  match readLenencInt data with
  | none => none
  | some (n, rest) => some (rest.take n, rest.drop n)

/-- `parse_ok`, from `protocol/packets/general.py`.  The `> 7` branch
reads status/warnings/info (plus `session_state_info` when
SESSION_TRACK is on and the status carries SESSION_STATE_CHANGED);
the short branch stops after warnings and leaves `info` empty.
`none` models an exception escaping a reader call. -/
def parseOk (data : List Nat) (caps : Nat) : Option OKPacket :=
  if 7 < data.length then
    match readLenencInt (data.drop 1) with
    | none => none
    | some (affected, r1) =>
      match readLenencInt r1 with
      | none => none
      | some (lastId, r2) =>
        let st := if flagIn PROTOCOL_41 caps || flagIn TRANSACTIONS caps
          then (toInt (r2.take 2), r2.drop 2) else (0, r2)
        let wa := if flagIn PROTOCOL_41 caps
          then (toInt (st.2.take 2), st.2.drop 2) else (0, st.2)
        if flagIn SESSION_TRACK caps then
          match readBytesLenenc wa.2 with
          | none => none
          | some (info, r5) =>
            if flagIn SESSION_STATE_CHANGED st.1 then
              match readBytesLenenc r5 with
              | none => none
              | some (ssi, _) =>
                some ⟨toInt (data.take 1), affected, lastId, st.1, wa.1,
                  info, some ssi⟩
            else
              some ⟨toInt (data.take 1), affected, lastId, st.1, wa.1,
                info, none⟩
        else
          some ⟨toInt (data.take 1), affected, lastId, st.1, wa.1,
            wa.2, none⟩
  else
    match readLenencInt (data.drop 1) with
    | none => none
    | some (affected, r1) =>
      match readLenencInt r1 with
      | none => none
      | some (lastId, r2) =>
        let st := if flagIn PROTOCOL_41 caps || flagIn TRANSACTIONS caps
          then (toInt (r2.take 2), r2.drop 2) else (0, r2)
        let wa := if flagIn PROTOCOL_41 caps
          then (toInt (st.2.take 2), st.2.drop 2) else (0, st.2)
        some ⟨toInt (data.take 1), affected, lastId, st.1, wa.1, [], none⟩

/-- `parse_err`, from `protocol/packets/general.py`. -/
def parseErr (data : List Nat) (caps : Nat) : ERRPacket :=
  if flagIn PROTOCOL_41 caps then
    ⟨toInt (data.take 1), toInt ((data.drop 1).take 2),
      some ((data.drop 3).take 1), some ((data.drop 4).take 5),
      data.drop 9⟩
  else
    ⟨toInt (data.take 1), toInt ((data.drop 1).take 2), none, none,
      data.drop 3⟩

/-- `parse_eof`, from `protocol/packets/general.py`. -/
def parseEof (data : List Nat) (caps : Nat) : EOFPacket :=
  if flagIn PROTOCOL_41 caps then
    ⟨toInt (data.take 1), some (toInt ((data.drop 1).take 2)),
      some (toInt ((data.drop 3).take 2))⟩
  else
    ⟨toInt (data.take 1), none, none⟩

/-- `parse_infile`, from `protocol/packets/general.py`. -/
def parseInfile (data : List Nat) : InfilePacket :=
  ⟨toInt (data.take 1), data.drop 1⟩

/-- Result of `try_parse_response`: a typed reply, or the body passed
through unchanged as opaque data (`return None, data`). -/
inductive Reply
  | ok : OKPacket → Reply
  | err : ERRPacket → Reply
  | eof : EOFPacket → Reply
  | infile : InfilePacket → Reply
  | data : List Nat → Reply
deriving DecidableEq

/-- `try_parse_response`, from `protocol/packets/readers.py`.
`data[0]` on the empty body raises `IndexError`, modelled by `none`. -/
def tryParseResponse (data : List Nat) (caps : Nat)
    (includeInfile : Bool) : Option Reply :=
  match data.head? with
  | none => none
  | some header =>
    if header = 254 ∧ data.length < 9 then
      (if flagIn DEPRECATE_EOF caps then (parseOk data caps).map Reply.ok
       else some (Reply.eof (parseEof data caps)))
    else if header = 0 then (parseOk data caps).map Reply.ok
    else if header = 255 then some (Reply.err (parseErr data caps))
    else if includeInfile ∧ header = 251 then
      some (Reply.infile (parseInfile data))
    else some (Reply.data data)

theorem tryParseResponse_cons (b : Nat) (rest : List Nat) (caps : Nat)
    (inf : Bool) :
    tryParseResponse (b :: rest) caps inf =
      (if b = 254 ∧ (b :: rest).length < 9 then
        (if flagIn DEPRECATE_EOF caps then
          (parseOk (b :: rest) caps).map Reply.ok
         else some (Reply.eof (parseEof (b :: rest) caps)))
      else if b = 0 then (parseOk (b :: rest) caps).map Reply.ok
      else if b = 255 then some (Reply.err (parseErr (b :: rest) caps))
      else if inf ∧ b = 251 then
        some (Reply.infile (parseInfile (b :: rest)))
      else some (Reply.data (b :: rest))) := rfl

/-- C8.  Classification of a non-empty reply body `b :: rest` follows
the header-byte table of `try_parse_response`: header `0xFE` with body
shorter than 9 bytes is parsed as OK when DEPRECATE_EOF is negotiated
and as EOF otherwise; else header `0x00` is parsed as OK; else `0xFF`
as ERR; else, when INFILE replies were requested, `0xFB` as INFILE;
anything else is returned unchanged as opaque data. -/
theorem response_classification (data : List Nat) (caps : Nat)
    (inf : Bool) (b : Nat) (rest : List Nat) (hdata : data = b :: rest) :
    (b = 0xFE → data.length < 9 →
      tryParseResponse data caps inf =
        (if flagIn DEPRECATE_EOF caps then (parseOk data caps).map Reply.ok
         else some (Reply.eof (parseEof data caps)))) ∧
    (¬(b = 0xFE ∧ data.length < 9) → b = 0x00 →
      tryParseResponse data caps inf = (parseOk data caps).map Reply.ok) ∧
    (¬(b = 0xFE ∧ data.length < 9) → b ≠ 0x00 → b = 0xFF →
      tryParseResponse data caps inf
        = some (Reply.err (parseErr data caps))) ∧
    (¬(b = 0xFE ∧ data.length < 9) → b ≠ 0x00 → b ≠ 0xFF →
      inf = true → b = 0xFB →
      tryParseResponse data caps inf
        = some (Reply.infile (parseInfile data))) ∧
    (¬(b = 0xFE ∧ data.length < 9) → b ≠ 0x00 → b ≠ 0xFF →
      ¬(inf = true ∧ b = 0xFB) →
      tryParseResponse data caps inf = some (Reply.data data)) := by
  subst hdata
  refine ⟨?_, ?_, ?_, ?_, ?_⟩
  · intro h1 h2
    rw [tryParseResponse_cons, if_pos ⟨h1, h2⟩]
  · intro h1 h2
    rw [tryParseResponse_cons, if_neg h1, if_pos h2]
  · intro h1 h2 h3
    rw [tryParseResponse_cons, if_neg h1, if_neg h2, if_pos h3]
  · intro h1 h2 h3 h4 h5
    rw [tryParseResponse_cons, if_neg h1, if_neg h2, if_neg h3,
      if_pos ⟨h4, h5⟩]
  · intro h1 h2 h3 h4
    rw [tryParseResponse_cons, if_neg h1, if_neg h2, if_neg h3, if_neg h4]

theorem response_classification_witness :
    tryParseResponse [0, 0, 0, 0, 0, 0, 0] 0 false
      = (parseOk [0, 0, 0, 0, 0, 0, 0] 0).map Reply.ok :=
  (response_classification [0, 0, 0, 0, 0, 0, 0] 0 false 0
    [0, 0, 0, 0, 0, 0] rfl).2.1 (by decide) rfl

/-- C10.  The packet classifier reads `data[0]` without an emptiness
guard: on the zero-length body it fails with the indexing error
(modelled as `none`) instead of returning any classification, and every
classification outcome presupposes a non-empty body; the plain framer
can legally deliver that zero-length body, since the empty message
round-trips as one empty fragment. -/
theorem classifier_requires_nonempty_body :
    (∀ (caps : Nat) (inf : Bool), tryParseResponse [] caps inf = none) ∧
    (∀ (data : List Nat) (caps : Nat) (inf : Bool) (r : Reply),
      tryParseResponse data caps inf = some r → data ≠ []) ∧
    (∀ s : Nat, s < 256 →
      ∃ w, sendBytes s [] = some w ∧
        recvMessage w (some s) = RecvResult.ok ((s + 1) % 256) [] []) := by
  refine ⟨fun caps inf => rfl, ?_, ?_⟩
  · intro data caps inf r h hc
    subst hc
    rw [show tryParseResponse [] caps inf = none from rfl] at h
    exact Option.noConfusion h
  · intro s hs
    refine ⟨_, sendBytes_eq [] s hs, ?_⟩
    have h := recvMessage_sendBytes [] s hs
    simpa [splitMessage_nil] using h

theorem classifier_requires_nonempty_body_witness :
    ([255] : List Nat) ≠ [] ∧
    (∃ w, sendBytes 0 [] = some w ∧
      recvMessage w (some 0) = RecvResult.ok ((0 + 1) % 256) [] []) :=
  ⟨classifier_requires_nonempty_body.2.1 [255] 0 false
    (Reply.err (parseErr [255] 0)) rfl,
   classifier_requires_nonempty_body.2.2 0 (by norm_num)⟩

/-! ## Result-set name→index mapping (`protocol/resultset.py`,
`protocol/text.py`) -/

/-- The dict comprehension
`names = {column.name_virtual: i for i, column in enumerate(columns)}`
followed by `names[item]`: Python dict assignment is iterated in column
order, so a later assignment to the same key overwrites an earlier one;
lookup of a missing key (`KeyError`) is `none`.  Columns are
represented by their `name_virtual`. -/
def namesLookup (names : List String) (q : String) : Option Nat :=
  List.foldl (fun acc (p : Nat × String) => if p.2 = q then some p.1 else acc)
    none names.enum

/-- `Row.__getitem__` with a string key, from `protocol/resultset.py` /
`protocol/text.py`: `self.data[self.names[item]]`. -/
def rowGetByName {α : Type} (names : List String) (data : List α)
    (q : String) : Option α :=
  (namesLookup names q).bind fun i => data.get? i

theorem namesLookup_append_single (names : List String) (n q : String) :
    namesLookup (names ++ [n]) q =
      if n = q then some names.length else namesLookup names q := by
  rw [namesLookup, namesLookup, List.enum_append, List.foldl_append]
  rfl

theorem namesLookup_last (pre post : List String) (q : String)
    (h : q ∉ post) :
    namesLookup (pre ++ q :: post) q = some pre.length := by
  induction post using List.reverseRecOn with
  | nil =>
    rw [show pre ++ [q] = pre ++ [q] from rfl,
      namesLookup_append_single pre q q, if_pos rfl]
  | append_singleton ps p ih =>
    have hr : pre ++ q :: (ps ++ [p]) = (pre ++ q :: ps) ++ [p] := by simp
    have hpq : p ≠ q := by
      intro hc
      exact h (hc ▸ List.mem_append_right _ (by simp))
    rw [hr, namesLookup_append_single, if_neg hpq]
    exact ih (fun hc => h (List.mem_append_left _ hc))

/-- C7, counterexample to the claim as stated: in a result set with two
columns both named "x", the shared name→index mapping resolves "x" to
index 1 (the LAST such column), so indexing the row `["a", "b"]` by
"x" yields "b", not the first column's value "a". -/
theorem name_index_first_counterexample :
    namesLookup ["x", "x"] "x" = some 1 ∧
    rowGetByName ["x", "x"] ["a", "b"] "x" = some "b" ∧
    rowGetByName ["x", "x"] ["a", "b"] "x" ≠ some "a" := by
  refine ⟨rfl, rfl, ?_⟩
  intro h
  simp [rowGetByName, namesLookup, List.enum, List.get?] at h

/-- C7 (amended).  The name→index mapping shared by all rows of a
result set resolves a `name_virtual` to the position of the LAST column
carrying that name (later dict assignments overwrite earlier ones);
indexing a row by a duplicated name returns the value at that last
column's position. -/
theorem name_index_last_occurrence {α : Type} (pre post : List String)
    (q : String) (data : List α) (h : q ∉ post) :
    namesLookup (pre ++ q :: post) q = some pre.length ∧
    rowGetByName (pre ++ q :: post) data q = data.get? pre.length := by
  have h1 := namesLookup_last pre post q h
  exact ⟨h1, by rw [rowGetByName, h1, Option.some_bind]⟩

theorem name_index_last_occurrence_witness :
    namesLookup (["y"] ++ "x" :: ["z"]) "x"
      = some (["y"] : List String).length ∧
    rowGetByName (["y"] ++ "x" :: ["z"]) ["1", "2", "3"] "x"
      = (["1", "2", "3"] : List String).get? (["y"] : List String).length :=
  name_index_last_occurrence ["y"] ["z"] "x" ["1", "2", "3"] (by decide)

end MySQLSpec
